import Mathlib

/-!
Verification of `rpi-rf-queued-sender.py`: a shallow embedding of the
intake / validate / dispatch / actuate pipeline of the script, together with
theorems settling the specification's claims against it.

Modelling conventions:
* JSON values are the inductive `Json`.  JSON numbers are modelled as
  integers (the schema only ever constrains integer fields).
* A ZeroMQ message frame is abstracted by its decode/parse outcome (`Msg`):
  `Msg.good j` stands for a byte frame whose UTF-8 decoding parses as the
  JSON value `j`; `Msg.badUtf8` for bytes raising `UnicodeDecodeError`;
  `Msg.badJson` for decodable bytes rejected by `json.loads`.  Likewise the
  frame the Intake Service sends (`socket.send(request.data)`) is represented
  by the JSON value that `request.data` parses to, which is exactly the value
  `request.get_json()` returned.
* External `rpi_rf.RFDevice` behaviour is a parameter `DevOracle`: whether
  the factory or `tx_code` raises for a given pin / code.  (`enable_tx` is
  assumed not to raise; no claim depends on it.)
* Side effects are recorded as an `Event` trace.  `Event.sleep` exists in the
  event vocabulary so that settle-delay claims can be stated; the script
  contains no sleeping construct (`time` is never imported), and accordingly
  no model function emits it.
-/

mutual
/-- JSON values as `json.loads` / `request.get_json()` produce them
(objects are the parsed dicts: key-value sequences with distinct keys). -/
inductive Json where
  | null : Json
  | bool : Bool → Json
  | int : Int → Json
  | str : String → Json
  | arr : JsonList → Json
  | obj : JsonFields → Json
deriving DecidableEq, Repr

inductive JsonList where
  | nil : JsonList
  | cons : Json → JsonList → JsonList
deriving DecidableEq, Repr

inductive JsonFields where
  | nil : JsonFields
  | cons : String → Json → JsonFields → JsonFields
deriving DecidableEq, Repr
end

namespace Json

/-- Binding of key `k` in a parsed dict (keys are distinct after parsing). -/
def jLookup (k : String) : JsonFields → Option Json
  | .nil => none
  | .cons k' v fs => if k' = k then some v else jLookup k fs

/-- `content[k]` on a parsed JSON value: `some` when `content` is a dict
holding the key, `none` when the subscript raises (`KeyError` on a dict
without the key, `TypeError` on non-dicts). -/
def objLookup (j : Json) (k : String) : Option Json :=
  match j with
  | .obj fs => jLookup k fs
  | _ => none

def isObj : Json → Bool
  | .obj _ => true
  | _ => false

def isInt : Json → Bool
  | .int _ => true
  | _ => false

/-- Whether the Python value is hashable (usable as a dict key):
parsed `list` and `dict` values raise `TypeError` when hashed. -/
def hashable : Json → Bool
  | .arr _ => false
  | .obj _ => false
  | _ => true

end Json

mutual
/-- Python `repr` of a parsed JSON value, as jsonschema interpolates it into
error messages (string escaping inside reprs is not modelled). -/
def pyRepr : Json → String
  | .null => "None"
  | .bool true => "True"
  | .bool false => "False"
  | .int n => toString n
  | .str s => "\x27" ++ s ++ "\x27"
  | .arr xs => "[" ++ pyReprList xs ++ "]"
  | .obj fs => "\x7b" ++ pyReprFields fs ++ "\x7d"

def pyReprList : JsonList → String
  | .nil => ""
  | .cons x .nil => pyRepr x
  | .cons x xs => pyRepr x ++ ", " ++ pyReprList xs

def pyReprFields : JsonFields → String
  | .nil => ""
  | .cons k v .nil => "\x27" ++ k ++ "\x27: " ++ pyRepr v
  | .cons k v fs => "\x27" ++ k ++ "\x27: " ++ pyRepr v ++ ", " ++ pyReprFields fs
end

namespace RequestHandler

/-- `SCHEMA.properties.gpioPin.minimum`. -/
def gpioPinMinimum : Int := 2
/-- `SCHEMA.properties.gpioPin.maximum`. -/
def gpioPinMaximum : Int := 27
/-- `SCHEMA.properties.code.minimum`. -/
def codeMinimum : Int := 0

/-- jsonschema `type` failure message. -/
def typeMsg (inst : Json) (ty : String) : String :=
  pyRepr inst ++ " is not of type \x27" ++ ty ++ "\x27"

/-- jsonschema `minimum` failure message. -/
def minimumMsg (inst : Json) (m : Int) : String :=
  pyRepr inst ++ " is less than the minimum of " ++ toString m

/-- jsonschema `maximum` failure message. -/
def maximumMsg (inst : Json) (m : Int) : String :=
  pyRepr inst ++ " is greater than the maximum of " ++ toString m

/-- jsonschema `required` failure message. -/
def requiredMsg (k : String) : String :=
  "\x27" ++ k ++ "\x27 is a required property"

def firstErr (a b : Option String) : Option String :=
  match a with
  | some m => some m
  | none => b

/-- Subschema for `gpioPin`: `type: integer`, `minimum: 2`, `maximum: 27`,
keywords checked in schema order, first failure reported.  A Python `bool`
is not an `integer` to jsonschema's type checker. -/
def checkGpioPin (v : Json) : Option String :=
  match v with
  | .int n =>
      if n < gpioPinMinimum then some (minimumMsg v gpioPinMinimum)
      else if gpioPinMaximum < n then some (maximumMsg v gpioPinMaximum)
      else none
  | _ => some (typeMsg v "integer")

/-- Subschema for `code`: `type: integer`, `minimum: 0`. -/
def checkCode (v : Json) : Option String :=
  match v with
  | .int n => if n < codeMinimum then some (minimumMsg v codeMinimum) else none
  | _ => some (typeMsg v "integer")

/-- `properties` applies a subschema only when the key is present. -/
def propertyErr (v : Option Json) (check : Json → Option String) : Option String :=
  match v with
  | some x => check x
  | none => none

/-- One entry of the `required` keyword. -/
def requiredErr (fs : JsonFields) (k : String) : Option String :=
  match Json.jLookup k fs with
  | some _ => none
  | none => some (requiredMsg k)

/-- `Draft202012Validator(schema=SCHEMA).validate(shape)`: raises the first
error in schema keyword order (`type`, then `properties` with `gpioPin`
before `code`, then `required`); `none` when the instance validates.
Extra keys of the instance are never consulted. -/
def validate (shape : Json) : Option String :=
  match shape with
  | .obj fs =>
      firstErr (propertyErr (Json.jLookup "gpioPin" fs) checkGpioPin)
        (firstErr (propertyErr (Json.jLookup "code" fs) checkCode)
          (firstErr (requiredErr fs "gpioPin") (requiredErr fs "code")))
  | _ => some (typeMsg shape "object")

/-- `RequestHandler.handle(request)`: validate the parsed body; on failure
return the `(reason, 400)` tuple and send nothing; on success send the
request body on the DEALER socket as one frame and return `jsonify({})`
(status 200, body `{}`).  Result: `((body text, status), frames sent)`. -/
def handle (shape : Json) : (String × Nat) × List Json :=
  match validate shape with
  | some m => (("Request validation failed: " ++ m, 400), [])
  | none => (("\x7b\x7d", 200), [shape])

end RequestHandler

/-- Observable actions of the worker process, in program order. -/
inductive Event where
  | recv : Event
  | createEv : Json → Event
  | enableEv : Json → Event
  | txEv : Json → Json → Event
  | cleanupEv : Json → Event
  | sleep : Nat → Event
deriving DecidableEq, Repr

/-- External `RFDevice` behaviour: whether `RFDevice(gpio, tx_repeat=200)`
raises for a pin, and whether `tx_code(code)` raises for a pin / code. -/
structure DevOracle where
  createFails : Json → Bool
  txFails : Json → Json → Bool

/-- The oracle of a healthy device stack: nothing raises. -/
def devOk : DevOracle := ⟨fun _ => false, fun _ _ => false⟩

namespace Sender

/-- `Sender.send(gpio, code)`.  The state is the list of pins holding a
cached `RFDevice` (`self.rfdevices` keys, insertion order).  Returns the new
state, the events performed, and whether an exception escaped `send`.
An unhashable `gpio` raises at the `gpio not in self.rfdevices` test; a
factory failure raises before the dict assignment; a `tx_code` failure
raises after any creation and enabling already happened. -/
def send (o : DevOracle) (st : List Json) (gpio code : Json) :
    List Json × List Event × Bool :=
  if gpio.hashable = false then (st, [], true)
  else if gpio ∈ st then
    if o.txFails gpio code then (st, [], true)
    else (st, [Event.txEv gpio code], false)
  else if o.createFails gpio then (st, [], true)
  else if o.txFails gpio code then
    (st ++ [gpio], [Event.createEv gpio, Event.enableEv gpio], true)
  else
    (st ++ [gpio], [Event.createEv gpio, Event.enableEv gpio, Event.txEv gpio code], false)

/-- `Sender.__del__`: `cleanup()` on every cached device, insertion order.
Only runs when the Python runtime finalizes the object. -/
def finalize (st : List Json) : List Event := st.map Event.cleanupEv

end Sender

/-- A Dispatch Channel frame, abstracted by its decode/parse outcome. -/
inductive Msg where
  | good : Json → Msg
  | badUtf8 : Msg
  | badJson : Msg
deriving DecidableEq, Repr

/-- One iteration of the `while True` loop of `dequeue_and_send` on one
received frame: `recv`, decode, `json.loads`, subscripts (`gpioPin` first,
then `code`), `sender.send`.  Every exception is caught by the two `except`
arms, the iteration just ends and the loop continues. -/
def workerStep (o : DevOracle) (st : List Json) (m : Msg) : List Json × List Event :=
  match m with
  | .badUtf8 => (st, [Event.recv])
  | .badJson => (st, [Event.recv])
  | .good j =>
      match j.objLookup "gpioPin", j.objLookup "code" with
      | some g, some c =>
          ((Sender.send o st g c).1, Event.recv :: (Sender.send o st g c).2.1)
      | _, _ => (st, [Event.recv])

/-- `dequeue_and_send`, run over a finite prefix of the frames delivered by
the ROUTER socket, from sender state `st`.  The trace concatenates the
iterations' events in order; the loop body never emits `Event.sleep` and
never emits `Event.cleanupEv`. -/
def dequeue_and_send (o : DevOracle) (msgs : List Msg) (st : List Json) :
    List Json × List Event :=
  match msgs with
  | [] => (st, [])
  | m :: ms =>
      ((dequeue_and_send o ms (workerStep o st m).1).1,
        (workerStep o st m).2 ++ (dequeue_and_send o ms (workerStep o st m).1).2)

/-- Frames put on the Dispatch Channel when the Intake Service handles
`bodies` in order over one DEALER connection (rejected bodies send
nothing; DEALER→ROUTER delivery preserves per-connection order). -/
def intakeFrames : List Json → List Msg
  | [] => []
  | b :: bs => ((RequestHandler.handle b).2.map Msg.good) ++ intakeFrames bs

/-- Codes transmitted for pin `p`, in trace order. -/
def txsFor (p : Json) (tr : List Event) : List Json :=
  tr.filterMap fun e =>
    match e with
    | Event.txEv g c => if g = p then some c else none
    | _ => none

/-- Codes of the bodies the Intake Service accepts whose `gpioPin` is `p`,
in submission order. -/
def acceptedFor (p : Json) : List Json → List Json
  | [] => []
  | b :: bs =>
      match RequestHandler.validate b, b.objLookup "gpioPin", b.objLookup "code" with
      | none, some g, some c =>
          if g = p then c :: acceptedFor p bs else acceptedFor p bs
      | _, _, _ => acceptedFor p bs

mutual
/-- Whether a trace satisfies the settle requirement with interval `d`:
after every transmission a sleep of at least `d` occurs before the worker
accepts (`recv`s) the next channel entry. -/
def settleHolds (d : Nat) : List Event → Bool
  | [] => true
  | Event.txEv _ _ :: rest => settleWait d rest
  | _ :: rest => settleHolds d rest

/-- After a transmission: fail on the next `recv` unless a sleep of at least
`d` is seen first. -/
def settleWait (d : Nat) : List Event → Bool
  | [] => true
  | Event.recv :: _ => false
  | Event.sleep ms :: rest => if d ≤ ms then settleHolds d rest else settleWait d rest
  | _ :: rest => settleWait d rest
end

/-- Scanner for "enable happens before any transmission on the handle":
walks a trace keeping the set of enabled pins (initially `enabled`) and
demands every `txEv` target be enabled at that point. -/
def enableBeforeTx (enabled : List Json) : List Event → Bool
  | [] => true
  | Event.recv :: rest => enableBeforeTx enabled rest
  | Event.createEv _ :: rest => enableBeforeTx enabled rest
  | Event.enableEv g :: rest => enableBeforeTx (g :: enabled) rest
  | Event.txEv g _ :: rest =>
      if g ∈ enabled then enableBeforeTx enabled rest else false
  | Event.cleanupEv _ :: rest => enableBeforeTx enabled rest
  | Event.sleep _ :: rest => enableBeforeTx enabled rest

/-- A body satisfying every schema constraint: a JSON object whose `gpioPin`
is an integer in `[2, 27]` and whose `code` is a non-negative integer.
Nothing is required of other fields. -/
def ValidBody (b : Json) : Prop :=
  b.isObj = true
  ∧ (∃ g : Int, b.objLookup "gpioPin" = some (Json.int g) ∧ 2 ≤ g ∧ g ≤ 27)
  ∧ (∃ c : Int, b.objLookup "code" = some (Json.int c) ∧ 0 ≤ c)

/-- A body violating some schema constraint of the claim: not an object,
a required field missing, a field of the wrong type, `gpioPin` out of
`[2, 27]`, or `code` negative. -/
def BadBody (b : Json) : Prop :=
  b.isObj = false
  ∨ b.objLookup "gpioPin" = none
  ∨ b.objLookup "code" = none
  ∨ (∃ v, b.objLookup "gpioPin" = some v ∧ v.isInt = false)
  ∨ (∃ v, b.objLookup "code" = some v ∧ v.isInt = false)
  ∨ (∃ g : Int, b.objLookup "gpioPin" = some (Json.int g) ∧ (g < 2 ∨ 27 < g))
  ∨ (∃ c : Int, b.objLookup "code" = some (Json.int c) ∧ c < 0)

/-- The two-field body `{"gpioPin": g, "code": c}`. -/
def cmdBody (g c : Int) : Json :=
  Json.obj (.cons "gpioPin" (.int g) (.cons "code" (.int c) .nil))

/-- The body `{"gpioPin": 17, "code": 5, "extra": 1}`: schema-conformant but
carrying a third, unrecognized field. -/
def extraFieldBody : Json :=
  Json.obj (.cons "gpioPin" (.int 17)
    (.cons "code" (.int 5) (.cons "extra" (.int 1) .nil)))

theorem firstErr_eq_none (a b : Option String) :
    RequestHandler.firstErr a b = none ↔ a = none ∧ b = none := by
  cases a <;> simp [RequestHandler.firstErr]

theorem checkGpioPin_eq_none (v : Json) :
    RequestHandler.checkGpioPin v = none
      ↔ ∃ n : Int, v = Json.int n ∧ 2 ≤ n ∧ n ≤ 27 := by
  cases v with
  | int n =>
      simp only [RequestHandler.checkGpioPin, RequestHandler.gpioPinMinimum,
        RequestHandler.gpioPinMaximum]
      split_ifs with h1 h2 <;> simp <;> omega
  | _ => simp [RequestHandler.checkGpioPin]

theorem checkCode_eq_none (v : Json) :
    RequestHandler.checkCode v = none ↔ ∃ n : Int, v = Json.int n ∧ 0 ≤ n := by
  cases v with
  | int n =>
      simp only [RequestHandler.checkCode, RequestHandler.codeMinimum]
      split_ifs with h1 <;> simp <;> omega
  | _ => simp [RequestHandler.checkCode]

theorem validate_eq_none_iff (b : Json) :
    RequestHandler.validate b = none ↔ ValidBody b := by
  cases b with
  | obj fs =>
      simp only [RequestHandler.validate, ValidBody, Json.isObj, Json.objLookup,
        firstErr_eq_none]
      cases hg : Json.jLookup "gpioPin" fs with
      | none =>
          simp [RequestHandler.propertyErr, RequestHandler.requiredErr, hg]
      | some vg =>
          cases hc : Json.jLookup "code" fs with
          | none =>
              simp [RequestHandler.propertyErr, RequestHandler.requiredErr, hg, hc]
          | some vc =>
              simp [RequestHandler.propertyErr, RequestHandler.requiredErr, hg, hc,
                checkGpioPin_eq_none, checkCode_eq_none]
  | _ => simp [RequestHandler.validate, ValidBody, Json.isObj]

theorem bad_not_valid (b : Json) (h : BadBody b) :
    RequestHandler.validate b ≠ none := by
  intro hnone
  obtain ⟨hobj, ⟨g, hg, hg1, hg2⟩, ⟨c, hc, hc0⟩⟩ := (validate_eq_none_iff b).1 hnone
  rcases h with h | h | h | ⟨v, hv, hvi⟩ | ⟨v, hv, hvi⟩ | ⟨g', hg', hrange⟩ | ⟨c', hc', hneg⟩
  · rw [hobj] at h; cases h
  · rw [hg] at h; cases h
  · rw [hc] at h; cases h
  · rw [hg] at hv; injection hv with hv; rw [← hv] at hvi; cases hvi
  · rw [hc] at hv; injection hv with hv; rw [← hv] at hvi; cases hvi
  · rw [hg] at hg'; injection hg' with hg'; injection hg' with hg'; omega
  · rw [hc] at hc'; injection hc' with hc'; injection hc' with hc'; omega

/-- C4: a body that is not a JSON object, lacks `gpioPin` or `code`, types
either wrongly, or violates the range constraints is answered with status
400, a reason text carrying the validator's message for the violated
constraint, and nothing is sent on the Dispatch Channel; a body meeting all
the constraints is answered 200 no matter what other fields it carries. -/
theorem handle_rejects_bad_accepts_valid (b : Json) :
    (BadBody b →
      (RequestHandler.handle b).1.2 = 400
      ∧ (RequestHandler.handle b).2 = []
      ∧ ∃ m, RequestHandler.validate b = some m
          ∧ (RequestHandler.handle b).1.1 = "Request validation failed: " ++ m)
    ∧ (ValidBody b → (RequestHandler.handle b).1.2 = 200) := by
  constructor
  · intro h
    obtain ⟨m, hm⟩ := Option.ne_none_iff_exists'.1 (bad_not_valid b h)
    simp [RequestHandler.handle, hm]
  · intro h
    have hv : RequestHandler.validate b = none := (validate_eq_none_iff b).2 h
    simp [RequestHandler.handle, hv]

/-- Witness for C4 at two concrete bodies: `{"code": 5}` (missing `gpioPin`)
is rejected with 400 and nothing sent; `{"gpioPin": 17, "code": 5,
"extra": 1}` is accepted despite the extra field. -/
theorem handle_rejects_bad_accepts_valid_witness :
    ((RequestHandler.handle (Json.obj (.cons "code" (.int 5) .nil))).1.2 = 400
      ∧ (RequestHandler.handle (Json.obj (.cons "code" (.int 5) .nil))).2 = []
      ∧ ∃ m, RequestHandler.validate (Json.obj (.cons "code" (.int 5) .nil)) = some m
          ∧ (RequestHandler.handle (Json.obj (.cons "code" (.int 5) .nil))).1.1
              = "Request validation failed: " ++ m)
    ∧ (RequestHandler.handle extraFieldBody).1.2 = 200 :=
  ⟨(handle_rejects_bad_accepts_valid _).1 (Or.inr (Or.inl rfl)),
   (handle_rejects_bad_accepts_valid extraFieldBody).2
     ⟨rfl, ⟨17, rfl, by omega, by omega⟩, ⟨5, rfl, by omega⟩⟩⟩

/-- C5: a body passing validation is answered with exactly status 200 and
body text `{}`, and exactly one frame — the body itself — is sent on the
Dispatch Channel.  `handle` is a function of the request alone: its result
does not depend on the worker, the pool, or any transmission outcome. -/
theorem handle_valid_fire_and_forget (b : Json)
    (h : RequestHandler.validate b = none) :
    RequestHandler.handle b = (("\x7b\x7d", 200), [b]) := by
  simp [RequestHandler.handle, h]

/-- Witness for C5 at `{"gpioPin": 17, "code": 123456}`. -/
theorem handle_valid_fire_and_forget_witness :
    RequestHandler.handle (cmdBody 17 123456)
      = (("\x7b\x7d", 200), [cmdBody 17 123456]) :=
  handle_valid_fire_and_forget (cmdBody 17 123456) rfl

/-- C9: `{"gpioPin": 1, "code": 5}` is answered 400 with the reason text
built from the jsonschema `minimum` message for the `gpioPin` bound 2;
nothing reaches the Dispatch Channel, so a worker fed this request's frames
acquires no handle whatever the device behaviour. -/
theorem handle_pin_below_minimum :
    RequestHandler.handle (cmdBody 1 5)
      = (("Request validation failed: "
            ++ RequestHandler.minimumMsg (Json.int 1) RequestHandler.gpioPinMinimum,
          400), [])
    ∧ intakeFrames [cmdBody 1 5] = []
    ∧ ∀ o : DevOracle, dequeue_and_send o (intakeFrames [cmdBody 1 5]) [] = ([], []) :=
  ⟨rfl, rfl, fun _ => rfl⟩

/-- C10: a frame that decodes and parses but is not a dict with both
`gpioPin` and `code` keys fails at the subscript before `Sender.send` is
reached: the handle map is untouched, the only event is the receive, and
the loop continues with the remaining frames from the unchanged state. -/
theorem worker_drops_fieldless_message (o : DevOracle) (st : List Json) (j : Json)
    (rest : List Msg)
    (h : j.objLookup "gpioPin" = none ∨ j.objLookup "code" = none) :
    workerStep o st (Msg.good j) = (st, [Event.recv])
    ∧ dequeue_and_send o (Msg.good j :: rest) st
        = ((dequeue_and_send o rest st).1,
            Event.recv :: (dequeue_and_send o rest st).2) := by
  have hstep : workerStep o st (Msg.good j) = (st, [Event.recv]) := by
    rcases h with h | h
    · simp [workerStep, h]
    · cases hg : j.objLookup "gpioPin" <;> simp [workerStep, h, hg]
  exact ⟨hstep, by simp [dequeue_and_send, hstep]⟩

/-- Witness for C10 at the frame `{"code": 5}` (no `gpioPin` key), followed
by no further traffic, from the empty pool. -/
theorem worker_drops_fieldless_message_witness :
    workerStep devOk [] (Msg.good (Json.obj (.cons "code" (.int 5) .nil)))
      = ([], [Event.recv])
    ∧ dequeue_and_send devOk [Msg.good (Json.obj (.cons "code" (.int 5) .nil))] []
        = ((dequeue_and_send devOk [] []).1,
            Event.recv :: (dequeue_and_send devOk [] []).2) :=
  worker_drops_fieldless_message devOk [] _ [] (Or.inl rfl)

theorem send_shape (o : DevOracle) (st : List Json) (g c : Json) :
    ((Sender.send o st g c).1 = st
      ∧ ((Sender.send o st g c).2.1 = []
         ∨ (g ∈ st ∧ (Sender.send o st g c).2.1 = [Event.txEv g c])))
    ∨ (g ∉ st ∧ (Sender.send o st g c).1 = st ++ [g]
      ∧ ((Sender.send o st g c).2.1 = [Event.createEv g, Event.enableEv g]
         ∨ (Sender.send o st g c).2.1
             = [Event.createEv g, Event.enableEv g, Event.txEv g c])) := by
  unfold Sender.send
  split_ifs with h1 h2 h3 h4 h5
  · exact Or.inl ⟨rfl, Or.inl rfl⟩
  · exact Or.inl ⟨rfl, Or.inl rfl⟩
  · exact Or.inl ⟨rfl, Or.inr ⟨h2, rfl⟩⟩
  · exact Or.inl ⟨rfl, Or.inl rfl⟩
  · exact Or.inr ⟨h2, rfl, Or.inl rfl⟩
  · exact Or.inr ⟨h2, rfl, Or.inr rfl⟩

/-- Every loop iteration either leaves the pool unchanged, emitting only a
receive or a receive plus one transmission on an already-cached pin, or adds
one new pin to the pool, emitting its creation, its enabling, and possibly
one transmission, in that order. -/
theorem workerStep_shape (o : DevOracle) (st : List Json) (m : Msg) :
    ((workerStep o st m).1 = st
      ∧ ((workerStep o st m).2 = [Event.recv]
         ∨ ∃ g c, g ∈ st ∧ (workerStep o st m).2 = [Event.recv, Event.txEv g c]))
    ∨ (∃ g c, g ∉ st ∧ (workerStep o st m).1 = st ++ [g]
      ∧ ((workerStep o st m).2 = [Event.recv, Event.createEv g, Event.enableEv g]
         ∨ (workerStep o st m).2
             = [Event.recv, Event.createEv g, Event.enableEv g, Event.txEv g c])) := by
  cases m with
  | badUtf8 => exact Or.inl ⟨rfl, Or.inl rfl⟩
  | badJson => exact Or.inl ⟨rfl, Or.inl rfl⟩
  | good j =>
      rcases hg : j.objLookup "gpioPin" with _ | g
      · exact Or.inl ⟨by simp [workerStep, hg], Or.inl (by simp [workerStep, hg])⟩
      · rcases hc : j.objLookup "code" with _ | c
        · exact Or.inl ⟨by simp [workerStep, hg, hc],
            Or.inl (by simp [workerStep, hg, hc])⟩
        · have hs : workerStep o st (Msg.good j)
              = ((Sender.send o st g c).1, Event.recv :: (Sender.send o st g c).2.1) := by
            simp [workerStep, hg, hc]
          rcases send_shape o st g c with ⟨h1, h2 | ⟨hmem, h2⟩⟩ | ⟨hmem, h1, h2 | h2⟩
          · exact Or.inl ⟨by rw [hs, h1], Or.inl (by rw [hs, h2])⟩
          · exact Or.inl ⟨by rw [hs, h1], Or.inr ⟨g, c, hmem, by rw [hs, h2]⟩⟩
          · exact Or.inr ⟨g, c, hmem, by rw [hs, h1], Or.inl (by rw [hs, h2])⟩
          · exact Or.inr ⟨g, c, hmem, by rw [hs, h1], Or.inr (by rw [hs, h2])⟩

/-- C2 counterexample: two rapid valid commands for pin 17.  Both are
transmitted, yet the trace fails the settle requirement for a 500 ms
interval: after the first transmission the worker `recv`s the next entry
with no intervening sleep (the loop body has no sleeping construct at all),
so no settle delay separates the two transmissions. -/
theorem no_settle_delay_counterexample :
    txsFor (Json.int 17)
        (dequeue_and_send devOk (intakeFrames [cmdBody 17 5, cmdBody 17 6]) []).2
      = [Json.int 5, Json.int 6]
    ∧ settleHolds 500
        (dequeue_and_send devOk (intakeFrames [cmdBody 17 5, cmdBody 17 6]) []).2
      = false :=
  ⟨rfl, rfl⟩

/-- C2 amended: the worker enforces no settle interval whatever — its trace
never contains a sleep, so consecutive transmissions are separated only by
the strictly sequential processing of the loop (and the blocking duration of
`tx_code` itself), not by any configured delay. -/
theorem worker_never_sleeps (o : DevOracle) (msgs : List Msg) :
    ∀ (st : List Json) (ms : Nat), Event.sleep ms ∉ (dequeue_and_send o msgs st).2 := by
  induction msgs with
  | nil => intro st ms; simp [dequeue_and_send]
  | cons m tl ih =>
      intro st ms
      simp only [dequeue_and_send, List.mem_append, not_or]
      refine ⟨?_, ih _ ms⟩
      rcases workerStep_shape o st m with ⟨_, h2 | ⟨g, c, _, h2⟩⟩ | ⟨g, c, _, _, h2 | h2⟩ <;>
        simp [h2]

theorem tx_mem_send (o : DevOracle) (st : List Json) (g c : Json)
    (hh : g.hashable = true) (hc : o.createFails g = false)
    (ht : o.txFails g c = false) :
    Event.txEv g c ∈ (Sender.send o st g c).2.1 := by
  by_cases hmem : g ∈ st <;> simp [Sender.send, hh, hc, ht, hmem]

/-- C3: whatever one frame does — undecodable bytes, malformed JSON, missing
fields, or a command on which acquisition or transmission raises — the
exception is caught inside the loop and a following well-formed command is
still transmitted (provided its own pin's device behaves). -/
theorem worker_survives_bad_message (o : DevOracle) (st : List Json) (m : Msg)
    (rest : List Msg) (g c : Int)
    (hcreate : o.createFails (Json.int g) = false)
    (htx : o.txFails (Json.int g) (Json.int c) = false) :
    Event.txEv (Json.int g) (Json.int c)
      ∈ (dequeue_and_send o (m :: Msg.good (cmdBody g c) :: rest) st).2 := by
  have hlg : (cmdBody g c).objLookup "gpioPin" = some (Json.int g) := rfl
  have hlc : (cmdBody g c).objLookup "code" = some (Json.int c) := rfl
  have hmem : Event.txEv (Json.int g) (Json.int c)
      ∈ (workerStep o (workerStep o st m).1 (Msg.good (cmdBody g c))).2 := by
    simp only [workerStep, hlg, hlc]
    exact List.mem_cons_of_mem _ (tx_mem_send o _ _ _ rfl hcreate htx)
  simp only [dequeue_and_send, List.mem_append]
  exact Or.inr (Or.inl hmem)

/-- Witness for C3: an undecodable frame followed by `{"gpioPin": 17,
"code": 8}` on a healthy device stack still transmits code 8 on pin 17. -/
theorem worker_survives_bad_message_witness :
    Event.txEv (Json.int 17) (Json.int 8)
      ∈ (dequeue_and_send devOk [Msg.badUtf8, Msg.good (cmdBody 17 8)] []).2 :=
  worker_survives_bad_message devOk [] Msg.badUtf8 [] 17 8 rfl rfl

/-- C8 counterexample: `{"gpioPin": 17, "code": 5, "extra": 1}` is accepted
and forwarded verbatim, so the single frame sent carries a third field
besides `gpioPin` and `code` — the frame does not hold exactly two fields. -/
theorem frame_with_extra_field :
    RequestHandler.validate extraFieldBody = none
    ∧ (RequestHandler.handle extraFieldBody).2 = [extraFieldBody]
    ∧ extraFieldBody.objLookup "extra" = some (Json.int 1) :=
  ⟨rfl, rfl, rfl⟩

/-- C8 amended: every accepted command is sent as a single frame that is the
request's JSON body verbatim — containing the `gpioPin` and `code` fields
and whatever extra fields the client supplied — and the worker decodes the
frame and extracts exactly those two fields, handing them to `Sender.send`
for transmission. -/
theorem frame_is_request_body (b : Json)
    (h : RequestHandler.validate b = none) :
    (RequestHandler.handle b).2 = [b]
    ∧ ∃ g c, b.objLookup "gpioPin" = some g ∧ b.objLookup "code" = some c
        ∧ ∀ (o : DevOracle) (st : List Json),
            workerStep o st (Msg.good b)
              = ((Sender.send o st g c).1,
                  Event.recv :: (Sender.send o st g c).2.1) := by
  obtain ⟨hobj, ⟨g, hg, _, _⟩, ⟨c, hc, _⟩⟩ := (validate_eq_none_iff b).1 h
  refine ⟨by simp [RequestHandler.handle, h], Json.int g, Json.int c, hg, hc, ?_⟩
  intro o st
  simp [workerStep, hg, hc]

/-- Witness for C8 (amended) at the accepted body with an extra field. -/
theorem frame_is_request_body_witness :
    (RequestHandler.handle extraFieldBody).2 = [extraFieldBody] :=
  (frame_is_request_body extraFieldBody rfl).1

theorem txsFor_append (p : Json) (a b : List Event) :
    txsFor p (a ++ b) = txsFor p a ++ txsFor p b := by
  simp [txsFor, List.filterMap_append]

theorem txsFor_recv_cons (p : Json) (l : List Event) :
    txsFor p (Event.recv :: l) = txsFor p l := by
  simp [txsFor]

theorem txsFor_send (o : DevOracle) (st : List Json) (g c p : Json)
    (hh : g.hashable = true) (hc : o.createFails g = false)
    (ht : o.txFails g c = false) :
    txsFor p (Sender.send o st g c).2.1 = if g = p then [c] else [] := by
  by_cases hp : g = p
  · subst hp
    by_cases hmem : g ∈ st <;> simp [Sender.send, txsFor, hh, hc, ht, hmem]
  · by_cases hmem : g ∈ st <;> simp [Sender.send, txsFor, hh, hc, ht, hmem, hp]

/-- C1: over one channel connection, with devices that do not raise, the
worker transmits for each pin exactly the codes of the commands the Intake
Service accepted for that pin, in acceptance order.  (The worker is a single
sequential loop — `dequeue_and_send` folds over the frames one at a time —
so a transmission always completes before the next frame is even received;
two transmissions in flight at once are impossible by construction.) -/
theorem worker_fifo_per_pin (o : DevOracle) (p : Json)
    (hc : ∀ g, o.createFails g = false) (ht : ∀ g c, o.txFails g c = false)
    (bodies : List Json) :
    ∀ st : List Json,
      txsFor p (dequeue_and_send o (intakeFrames bodies) st).2
        = acceptedFor p bodies := by
  induction bodies with
  | nil => intro st; simp [intakeFrames, dequeue_and_send, txsFor, acceptedFor]
  | cons b bs ih =>
      intro st
      rcases hv : RequestHandler.validate b with _ | m
      · obtain ⟨hobj, ⟨g, hg, _, _⟩, ⟨c, hcd, _⟩⟩ := (validate_eq_none_iff b).1 hv
        have hframes : intakeFrames (b :: bs) = Msg.good b :: intakeFrames bs := by
          simp [intakeFrames, RequestHandler.handle, hv]
        have hstep : workerStep o st (Msg.good b)
            = ((Sender.send o st (Json.int g) (Json.int c)).1,
                Event.recv :: (Sender.send o st (Json.int g) (Json.int c)).2.1) := by
          simp [workerStep, hg, hcd]
        have hacc : acceptedFor p (b :: bs)
            = if Json.int g = p then Json.int c :: acceptedFor p bs
              else acceptedFor p bs := by
          simp [acceptedFor, hv, hg, hcd]
        rw [hframes]
        simp only [dequeue_and_send, hstep, List.cons_append]
        rw [txsFor_recv_cons, txsFor_append,
          txsFor_send o st (Json.int g) (Json.int c) p rfl (hc _) (ht _ _),
          ih ((Sender.send o st (Json.int g) (Json.int c)).1), hacc]
        by_cases hp : Json.int g = p <;> simp [hp]
      · have hframes : intakeFrames (b :: bs) = intakeFrames bs := by
          simp [intakeFrames, RequestHandler.handle, hv]
        have hacc : acceptedFor p (b :: bs) = acceptedFor p bs := by
          simp [acceptedFor, hv]
        rw [hframes, hacc]
        exact ih st

/-- Witness for C1: commands 5, 9-on-bad-pin, 6; the rejected middle one is
dropped at intake and pin 17 transmits codes 5 then 6, in order. -/
theorem worker_fifo_per_pin_witness :
    txsFor (Json.int 17)
        (dequeue_and_send devOk
          (intakeFrames [cmdBody 17 5, cmdBody 1 9, cmdBody 17 6]) []).2
      = [Json.int 5, Json.int 6] :=
  (worker_fifo_per_pin devOk (Json.int 17) (fun _ => rfl) (fun _ _ => rfl)
      [cmdBody 17 5, cmdBody 1 9, cmdBody 17 6] []).trans rfl

theorem dequeue_pool_mono (o : DevOracle) (msgs : List Msg) :
    ∀ st : List Json, st ⊆ (dequeue_and_send o msgs st).1 := by
  induction msgs with
  | nil => intro st; simp [dequeue_and_send]
  | cons m tl ih =>
      intro st
      simp only [dequeue_and_send]
      rcases workerStep_shape o st m with ⟨h1, _⟩ | ⟨ga, ca, _, h1, _⟩
      · rw [h1]; exact ih st
      · rw [h1]
        exact (List.subset_append_left st [ga]).trans (ih (st ++ [ga]))

theorem count_create_zero_of_mem (o : DevOracle) (msgs : List Msg) :
    ∀ (st : List Json) (g : Json), g ∈ st →
      ((dequeue_and_send o msgs st).2).count (Event.createEv g) = 0 := by
  induction msgs with
  | nil => intro st g _; simp [dequeue_and_send]
  | cons m tl ih =>
      intro st g hg
      simp only [dequeue_and_send, List.count_append]
      rcases workerStep_shape o st m with ⟨h1, h2 | ⟨ga, ca, _, h2⟩⟩
        | ⟨ga, ca, hmem, h1, h2 | h2⟩
      · rw [h1, h2, ih st g hg]; simp
      · rw [h1, h2, ih st g hg]; simp
      · have hne : ga ≠ g := fun h => hmem (h ▸ hg)
        rw [h1, h2, ih (st ++ [ga]) g (List.mem_append_left _ hg)]
        simp [List.count_cons, hne]
      · have hne : ga ≠ g := fun h => hmem (h ▸ hg)
        rw [h1, h2, ih (st ++ [ga]) g (List.mem_append_left _ hg)]
        simp [List.count_cons, hne]

theorem count_create_le_one (o : DevOracle) (msgs : List Msg) :
    ∀ (st : List Json) (g : Json), g ∉ st →
      ((dequeue_and_send o msgs st).2).count (Event.createEv g) ≤ 1 := by
  induction msgs with
  | nil => intro st g _; simp [dequeue_and_send]
  | cons m tl ih =>
      intro st g hg
      simp only [dequeue_and_send, List.count_append]
      rcases workerStep_shape o st m with ⟨h1, h2 | ⟨ga, ca, _, h2⟩⟩
        | ⟨ga, ca, hmem, h1, h2 | h2⟩
      · rw [h1, h2]
        simpa using ih st g hg
      · rw [h1, h2]
        simpa using ih st g hg
      · by_cases hgg : ga = g
        · subst hgg
          rw [h1, h2,
            count_create_zero_of_mem o tl (st ++ [ga]) ga
              (List.mem_append_right _ (List.mem_singleton_self _))]
          simp
        · rw [h1, h2]
          have : g ∉ st ++ [ga] := by
            simp only [List.mem_append, List.mem_singleton]
            rintro (h | h)
            · exact hg h
            · exact hgg h.symm
          simpa [List.count_cons, hgg] using ih (st ++ [ga]) g this
      · by_cases hgg : ga = g
        · subst hgg
          rw [h1, h2,
            count_create_zero_of_mem o tl (st ++ [ga]) ga
              (List.mem_append_right _ (List.mem_singleton_self _))]
          simp
        · rw [h1, h2]
          have : g ∉ st ++ [ga] := by
            simp only [List.mem_append, List.mem_singleton]
            rintro (h | h)
            · exact hg h
            · exact hgg h.symm
          simpa [List.count_cons, hgg] using ih (st ++ [ga]) g this

theorem count_enable_eq_count_create (o : DevOracle) (msgs : List Msg) :
    ∀ (st : List Json) (g : Json),
      ((dequeue_and_send o msgs st).2).count (Event.enableEv g)
        = ((dequeue_and_send o msgs st).2).count (Event.createEv g) := by
  induction msgs with
  | nil => intro st g; simp [dequeue_and_send]
  | cons m tl ih =>
      intro st g
      simp only [dequeue_and_send, List.count_append]
      rcases workerStep_shape o st m with ⟨h1, h2 | ⟨ga, ca, _, h2⟩⟩
        | ⟨ga, ca, _, h1, h2 | h2⟩
      · rw [h1, h2, ih]
        simp [List.count_cons]
      · rw [h1, h2, ih]
        simp [List.count_cons]
      · rw [h1, h2, ih]
        by_cases hgg : ga = g <;> simp [List.count_cons, hgg]
      · rw [h1, h2, ih]
        by_cases hgg : ga = g <;> simp [List.count_cons, hgg]

theorem enableBeforeTx_dequeue (o : DevOracle) (msgs : List Msg) :
    ∀ (st enabled : List Json), st ⊆ enabled →
      enableBeforeTx enabled (dequeue_and_send o msgs st).2 = true := by
  induction msgs with
  | nil => intro st en _; simp [dequeue_and_send, enableBeforeTx]
  | cons m tl ih =>
      intro st en hsub
      simp only [dequeue_and_send]
      rcases workerStep_shape o st m with ⟨h1, h2 | ⟨ga, ca, hmem, h2⟩⟩
        | ⟨ga, ca, hmem, h1, h2 | h2⟩
      · rw [h1, h2]
        simpa [enableBeforeTx] using ih st en hsub
      · rw [h1, h2]
        have hen : ga ∈ en := hsub hmem
        simpa [enableBeforeTx, hen] using ih st en hsub
      · rw [h1, h2]
        have hsub' : st ++ [ga] ⊆ ga :: en := by
          intro x hx
          rcases List.mem_append.1 hx with h | h
          · exact List.mem_cons_of_mem _ (hsub h)
          · simp only [List.mem_singleton] at h
            simp [h]
        simpa [enableBeforeTx] using ih (st ++ [ga]) (ga :: en) hsub'
      · rw [h1, h2]
        have hsub' : st ++ [ga] ⊆ ga :: en := by
          intro x hx
          rcases List.mem_append.1 hx with h | h
          · exact List.mem_cons_of_mem _ (hsub h)
          · simp only [List.mem_singleton] at h
            simp [h]
        simpa [enableBeforeTx] using ih (st ++ [ga]) (ga :: en) hsub'

/-- C6: from the worker's fresh `Sender()` (its pool starts empty), each
pin's device is created at most once no matter how many commands reference
it, `enable_tx` is invoked exactly as often as the device is created (so
exactly once for every handle that exists), and every transmission on a pin
happens only after that pin's handle was enabled — later commands for the
pin reuse the cached handle without creating or enabling again. -/
theorem pool_idempotent_acquire (o : DevOracle) (msgs : List Msg) (g : Json) :
    ((dequeue_and_send o msgs []).2).count (Event.createEv g) ≤ 1
    ∧ ((dequeue_and_send o msgs []).2).count (Event.enableEv g)
        = ((dequeue_and_send o msgs []).2).count (Event.createEv g)
    ∧ enableBeforeTx [] (dequeue_and_send o msgs []).2 = true :=
  ⟨count_create_le_one o msgs [] g (by simp),
   count_enable_eq_count_create o msgs [] g,
   enableBeforeTx_dequeue o msgs [] [] (by simp)⟩

theorem cleanup_not_in_dequeue (o : DevOracle) (msgs : List Msg) :
    ∀ (st : List Json) (g : Json),
      Event.cleanupEv g ∉ (dequeue_and_send o msgs st).2 := by
  induction msgs with
  | nil => intro st g; simp [dequeue_and_send]
  | cons m tl ih =>
      intro st g
      simp only [dequeue_and_send, List.mem_append, not_or]
      refine ⟨?_, ih _ g⟩
      rcases workerStep_shape o st m with ⟨_, h2 | ⟨ga, ca, _, h2⟩⟩
        | ⟨ga, ca, _, _, h2 | h2⟩ <;> simp [h2]

theorem dequeue_pool_nodup (o : DevOracle) (msgs : List Msg) :
    ∀ st : List Json, st.Nodup → ((dequeue_and_send o msgs st).1).Nodup := by
  induction msgs with
  | nil => intro st h; simpa [dequeue_and_send] using h
  | cons m tl ih =>
      intro st h
      simp only [dequeue_and_send]
      rcases workerStep_shape o st m with ⟨h1, _⟩ | ⟨ga, ca, hmem, h1, _⟩
      · rw [h1]; exact ih st h
      · rw [h1]
        refine ih (st ++ [ga]) ?_
        rw [List.nodup_append]
        refine ⟨h, List.nodup_singleton _, ?_⟩
        intro x hx hx'
        simp only [List.mem_singleton] at hx'
        exact hmem (hx' ▸ hx)

/-- C7 (what the code actually does): during processing the worker releases
nothing — no `cleanup` event ever occurs in the loop's trace — and the only
release site in the program is `Sender.__del__`, which, when the Python
runtime does finalize the `Sender`, cleans up each handle ever acquired
exactly once.  Nothing in `dequeue_and_send` ties this release to the loop's
exit paths: whether `__del__` runs on a given termination is decided by the
runtime, not by this code. -/
theorem cleanup_only_in_finalizer (o : DevOracle) (msgs : List Msg) (g : Json) :
    Event.cleanupEv g ∉ (dequeue_and_send o msgs []).2
    ∧ (Sender.finalize (dequeue_and_send o msgs []).1).count (Event.cleanupEv g)
        = if g ∈ (dequeue_and_send o msgs []).1 then 1 else 0 := by
  refine ⟨cleanup_not_in_dequeue o msgs [] g, ?_⟩
  have hnd : ((dequeue_and_send o msgs []).1).Nodup :=
    dequeue_pool_nodup o msgs [] List.nodup_nil
  unfold Sender.finalize
  rw [List.count_map_of_injective _ Event.cleanupEv
    (fun a b h => by injection h) g]
  split_ifs with h
  · exact List.count_eq_one_of_mem hnd h
  · exact List.count_eq_zero_of_not_mem h
